import Mathlib

/-!
Verification development for the LLM Gateway subsystem of the finance-chatbot
repository.  The Lean definitions below are shallow embeddings of the Python
functions in `src/core/llm_key_manager.py`, `src/services/gemini_client.py`
and `src/services/chat_service.py`; the theorems settle the spec claims.

Modelling conventions:
- timestamps and durations are natural numbers (`time.time()` becomes an
  explicit `now : Nat` argument);
- Python dictionaries keyed by api keys become functions `String → Nat`;
- `random.choice` becomes an explicit choice index `choice : Nat` reduced
  modulo the list length;
- Python truthiness of an optional string (`if key:` treats both `None` and
  the empty string as false) is the helper `truthyStr`;
- unbounded loops/recursion take an explicit fuel argument; `none` means the
  fuel ran out (i.e. the Python code would still be running).
-/

namespace FinanceChatbot

/-- Truthiness of `Optional[str]` in Python: `None` and `""` are falsy.
`truthyStr o = some s` exactly when the Python value is a non-empty string. -/
def truthyStr : Option String → Option String
  | none => none
  | some s => if s = "" then none else some s

/-! ## Key manager (`src/core/llm_key_manager.py`) -/

/-- State of `LLMKeyManager`: the ordered key list and the three per-key
tracking dictionaries (`key_usage_count`, `last_used_time`,
`rate_limited_until`), modelled as functions from keys. -/
structure LLMKeyManager where
  keys : List String
  key_usage_count : String → Nat
  last_used_time : String → Nat
  rate_limited_until : String → Nat

/-- `LLMKeyManager.mark_key_rate_limited`: if the key belongs to the pool,
set `rate_limited_until[key] = current_time + duration` (an unconditional
assignment in the source, lines 136-147). -/
def mark_key_rate_limited (m : LLMKeyManager) (key : String) (now : Nat)
    (duration : Nat) : LLMKeyManager :=
  if key ∈ m.keys then
    { m with rate_limited_until :=
        fun k => if k = key then now + duration else m.rate_limited_until k }
  else m

/-- The `available_keys` filter of `get_random_key`:
keys whose `rate_limited_until` lies strictly in the past. -/
def availableKeys (m : LLMKeyManager) (now : Nat) : List String :=
  m.keys.filter (fun k => m.rate_limited_until k < now)

/-- Python's `min(xs, key=f)` on a non-empty list: the first element
attaining the minimal `f`-value, via a left fold. -/
def minByFold (f : String → Nat) (x : String) (xs : List String) : String :=
  xs.foldl (fun best k => if f k < f best then k else best) x

/-- `min(self.rate_limited_until.items(), key=lambda x: x[1])[0]`: the dict
preserves the insertion order of `keys`, so this is `minByFold` over the
key list. -/
def minKeyBy (l : List String) (f : String → Nat) : Option String :=
  match l with
  | [] => none
  | x :: xs => some (minByFold f x xs)

/-- The usage-tracking update at the end of `get_random_key`:
`key_usage_count[key] += 1; last_used_time[key] = current_time`. -/
def bumpUsage (m : LLMKeyManager) (key : String) (now : Nat) :
    LLMKeyManager :=
  { m with
    key_usage_count :=
      fun k => if k = key then m.key_usage_count k + 1
               else m.key_usage_count k,
    last_used_time :=
      fun k => if k = key then now else m.last_used_time k }

/-- `LLMKeyManager.get_random_key` (lines 64-84): raise (`none`) on an empty
pool; otherwise pick a random available key, falling back to the key with
minimal `rate_limited_until` when all keys are cooling down; then bump the
chosen key's usage count and last-used time. -/
def get_random_key (m : LLMKeyManager) (now : Nat) (choice : Nat) :
    Option (String × LLMKeyManager) :=
  if m.keys = [] then none
  else
    match (if availableKeys m now = [] then
             minKeyBy m.keys m.rate_limited_until
           else
             (availableKeys m now)[choice % (availableKeys m now).length]?) with
    | none => none
    | some key => some (key, bumpUsage m key now)

/-- Environment snapshot seen by `_load_keys_from_env`: the numbered
variables `PREFIX_i` and the unnumbered variable `PREFIX`. -/
structure Env where
  numbered : Nat → Option String
  single : Option String

/-- The `while True` loop of `_load_keys_from_env` (lines 47-56): collect
`PREFIX_i` for `i = start, start+1, …` and stop at the first falsy value.
`fuel` bounds the number of iterations. -/
def loadNumbered (env : Env) : Nat → Nat → List String
  | 0, _ => []
  | fuel + 1, i =>
      match truthyStr (env.numbered i) with
      | some k => k :: loadNumbered env fuel (i + 1)
      | none => []

/-- `LLMKeyManager._load_keys_from_env` (lines 43-62): numbered keys from
index 1, then the unnumbered key if truthy and not already present. -/
def load_keys_from_env (env : Env) (fuel : Nat) : List String :=
  let keys := loadNumbered env fuel 1
  match truthyStr env.single with
  | some s => if s ∈ keys then keys else keys ++ [s]
  | none => keys

/-! ## Model gateway (`src/services/gemini_client.py`) -/

/-- Configuration of `LLMService` relevant to retry/fallback:
`max_retries`, `retry_delay` (base backoff), `rate_limit_duration`
(cooldown handed to `mark_key_rate_limited`) and the backup model list. -/
structure LLMServiceCfg where
  max_retries : Nat
  retry_delay : Nat
  rate_limit_duration : Nat
  num_backups : Nat
  deriving DecidableEq, Repr

/-- Observable events of one `generate_content_with_tools` run, in program
order: semaphore acquire/release, credential refresh, the two upstream calls
(tool-resolution and stream-opening, tagged with the model index used),
marking a key rate-limited (with the cooldown), and a backoff sleep (with
the delay). -/
inductive Ev where
  | semAcquire : Ev
  | semRelease : Ev
  | refreshKey : Ev
  | toolCall (modelIndex : Nat) : Ev
  | streamCall (modelIndex : Nat) : Ev
  | markRL (cooldown : Nat) : Ev
  | sleep (delay : Nat) : Ev
  deriving DecidableEq, Repr

/-- Outcome of one attempt of the `while response_stream is None` loop:
the upstream call raises a rate-limit-class error, raises some other
exception, or succeeds and hands back a stream of chunks.  A chunk's
payload is its `text` attribute (`none` for e.g. function-call-only
fragments; Python also treats an empty string as no text). -/
inductive AttemptOutcome where
  | rateLimited : AttemptOutcome
  | otherError : AttemptOutcome
  | stream (chunks : List (Option String)) : AttemptOutcome

/-- How the `while response_stream is None` loop ends: with a stream (and
the retry counter / model index in force at that point), by the
`except Exception` branch (`yield None; return`), or by the rate-limit
exhaustion re-raise escaping the generator. -/
inductive AcqResult where
  | gotStream (chunks : List (Option String)) (rc mi : Nat) : AcqResult
  | yieldedNone : AcqResult
  | raisedOut : AcqResult
  deriving DecidableEq, Repr

/-- Whether the async generator terminated normally or by propagating an
exception to its consumer. -/
inductive TermStatus where
  | normal : TermStatus
  | raised : TermStatus
  deriving DecidableEq, Repr

/-- `LLMService._handle_rate_limit` (lines 87-126): mark the key, then
either advance to the next model (raising when the chain is exhausted) or
sleep an exponential backoff; returns its event list and
`some (retry_count + 1, model_index)` — note the `+ 1` applies to the
already-reset counter in the model-switch branch. -/
def handle_rate_limit (cfg : LLMServiceCfg) (rc mi : Nat) :
    List Ev × Option (Nat × Nat) :=
  if cfg.max_retries ≤ rc then
    if cfg.num_backups + 1 ≤ mi + 1 then
      ([Ev.markRL cfg.rate_limit_duration], none)
    else
      ([Ev.markRL cfg.rate_limit_duration], some (0 + 1, mi + 1))
  else
    ([Ev.markRL cfg.rate_limit_duration,
      Ev.sleep (cfg.retry_delay * 2 ^ rc)], some (rc + 1, mi))

/-- The `while response_stream is None` loop of
`generate_content_with_tools` (lines 178-243).  Each iteration runs the
semaphore-guarded attempt block; a rate-limit error is handled by
`handle_rate_limit` under a second semaphore acquisition (the `async with`
releases the semaphore even when the handler re-raises).  Returns the event
trace, the next attempt index of the schedule, and how the loop ended. -/
def acquireLoop (cfg : LLMServiceCfg) (sched : Nat → AttemptOutcome) :
    Nat → Nat → Nat → Nat → Option (List Ev × Nat × AcqResult)
  | 0, _, _, _ => none
  | fuel + 1, n, rc, mi =>
      match sched n with
      | AttemptOutcome.stream chunks =>
          some ([Ev.semAcquire, Ev.refreshKey, Ev.toolCall mi,
                 Ev.streamCall mi, Ev.semRelease],
                n + 1, AcqResult.gotStream chunks rc mi)
      | AttemptOutcome.otherError =>
          some ([Ev.semAcquire, Ev.refreshKey, Ev.toolCall mi,
                 Ev.semRelease],
                n + 1, AcqResult.yieldedNone)
      | AttemptOutcome.rateLimited =>
          let evs0 := [Ev.semAcquire, Ev.refreshKey, Ev.toolCall mi,
                       Ev.semRelease, Ev.semAcquire]
          match handle_rate_limit cfg rc mi with
          | (hevs, none) =>
              some (evs0 ++ hevs ++ [Ev.semRelease], n + 1,
                    AcqResult.raisedOut)
          | (hevs, some (rc', mi')) =>
              match acquireLoop cfg sched fuel (n + 1) rc' mi' with
              | none => none
              | some (evs, n', r) =>
                  some (evs0 ++ hevs ++ [Ev.semRelease] ++ evs, n', r)

/-- `_process_function_call_chunk`: the chunk's text when present and
non-empty, otherwise `None`. -/
def process_function_call_chunk (chunk : Option String) : Option String :=
  truthyStr chunk

/-- The `for chunk in response_stream` loop (lines 245-268): yield text
chunks (resetting the empty-chunk counter, setting `has_yielded_content`),
count textless chunks, and break once the counter reaches 3 with no text
yielded yet.  Returns the yielded texts, the final counter, and the final
`has_yielded_content` flag. -/
def emitChunks : List (Option String) → Nat → Bool →
    List String × Nat × Bool
  | [], ec, hy => ([], ec, hy)
  | chunk :: rest, ec, hy =>
      match process_function_call_chunk chunk with
      | some t =>
          let r := emitChunks rest 0 true
          (t :: r.1, r.2.1, r.2.2)
      | none =>
          if 3 ≤ ec + 1 ∧ hy = false then ([], ec + 1, hy)
          else emitChunks rest (ec + 1) hy

/-- Result of one (modelled) call of `generate_content_with_tools`: the
values yielded to the consumer, how the generator terminated, the next
attempt index of the schedule, and the event trace. -/
structure GenOut where
  yields : List (Option String)
  status : TermStatus
  nextAttempt : Nat
  events : List Ev
  deriving DecidableEq, Repr

/-- `LLMService.generate_content_with_tools` (lines 152-295):
run the acquisition loop from `retry_count = 0`, `model_index = 0`; on a
stream, emit chunks; if the empty-stream guard fired (counter ≥ 3 and no
text yielded), bump the counter / advance the model locally and, unless the
chain is exhausted, retry through a fresh recursive call whose non-`None`
yields are forwarded (an exception from the recursion is caught by the
enclosing `except Exception`, which yields `None`).  `fuel` bounds the
recursion depth; `none` means the code would still be recursing. -/
def generate (cfg : LLMServiceCfg) (sched : Nat → AttemptOutcome) :
    Nat → Nat → Option GenOut
  | 0, _ => none
  | fuel + 1, n =>
      match acquireLoop cfg sched (fuel + 1) n 0 0 with
      | none => none
      | some (evs, n', AcqResult.raisedOut) =>
          some ⟨[], TermStatus.raised, n', evs⟩
      | some (evs, n', AcqResult.yieldedNone) =>
          some ⟨[none], TermStatus.normal, n', evs⟩
      | some (evs, n', AcqResult.gotStream chunks rc mi) =>
          let r := emitChunks chunks 0 false
          let ys : List (Option String) := r.1.map Option.some
          if 3 ≤ r.2.1 ∧ r.2.2 = false then
            if cfg.max_retries ≤ rc + 1 then
              if cfg.num_backups + 1 ≤ mi + 1 then
                some ⟨ys ++ [none], TermStatus.normal, n', evs⟩
              else
                match generate cfg sched fuel n' with
                | none => none
                | some g =>
                    some ⟨ys ++ (g.yields.filterMap id).map Option.some ++
                            (if g.status = TermStatus.raised then [none]
                             else []),
                          TermStatus.normal, g.nextAttempt, evs ++ g.events⟩
            else
              match generate cfg sched fuel n' with
              | none => none
              | some g =>
                  some ⟨ys ++ (g.yields.filterMap id).map Option.some ++
                          (if g.status = TermStatus.raised then [none]
                           else []),
                        TermStatus.normal, g.nextAttempt, evs ++ g.events⟩
          else
            some ⟨ys, TermStatus.normal, n', evs⟩

/-- Model indices of the attempts a trace contains (one `toolCall` event
per iteration of the acquisition loop). -/
def modelAttempts (evs : List Ev) : List Nat :=
  evs.filterMap (fun e =>
    match e with
    | Ev.toolCall mi => some mi
    | _ => none)

/-! ## Tool call processing (`LLMService._process_tool_call`, lines 301-326) -/

/-- A registered tool: its `__name__` and its behaviour on the (opaque)
argument map — `Except.error` models the tool raising. -/
structure Tool where
  name : String
  run : String → Except String String

/-- A model-requested function call: `name` and the (opaque) `args`. -/
structure ToolCall where
  name : String
  args : String
  deriving DecidableEq, Repr

/-- Entries of the `contents` conversation list. -/
inductive Content where
  | userText (t : String) : Content
  | modelFunctionCall (name args : String) : Content
  | userFunctionResponse (name result : String) : Content
  deriving DecidableEq, Repr

/-- `LLMService._process_tool_call`: look the tool up by name (first match,
as `next(...)` does); on a miss, return with `contents` unchanged; execute
the tool inside `try`, so a raising tool also leaves `contents` unchanged;
on success append the model's function call followed by the function
response.  Total — the Python method never propagates an exception. -/
def process_tool_call (operation_tools : List Tool) (tc : ToolCall)
    (contents : List Content) : List Content :=
  match operation_tools.find? (fun t => t.name = tc.name) with
  | none => contents
  | some tool =>
      match tool.run tc.args with
      | Except.error _ => contents
      | Except.ok result =>
          contents ++ [Content.modelFunctionCall tc.name tc.args,
                       Content.userFunctionResponse tc.name result]

/-! ## Chat sessions (`src/services/chat_service.py`, lines 20-40, 340-364) -/

/-- Per-session state of `ChatbotService` (the fields claim C7 needs). -/
structure ChatbotService where
  model_name : String
  session_id : String
  conversation_history : List String
  deriving DecidableEq, Repr

/-- `ChatbotService.__init__`: `session_id = session_id or str(uuid.uuid4())`
— the generated uuid (`freshUuid`) is used when the supplied id is falsy. -/
def mkChatbotService (model : String) (sid : Option String)
    (freshUuid : String) : ChatbotService :=
  { model_name := model
    session_id :=
      match truthyStr sid with
      | some s => s
      | none => freshUuid
    conversation_history := [] }

/-- The module-level registry: `default_chatbot_service` (built once when
the module loads) and the `chatbot_sessions` dict, modelled as an
association list in insertion order. -/
structure SessionRegistry where
  default_service : ChatbotService
  sessions : List (String × ChatbotService)
  deriving DecidableEq, Repr

/-- `get_chatbot_service(model_name, session_id)`: a falsy session id
returns the shared `default_chatbot_service`; otherwise the session is
looked up in `chatbot_sessions` and created (with the supplied id) only
when absent.  `freshUuid` feeds a creation's uuid fallback (unused here,
since the id is truthy on that path).  Returns the service and the updated
registry. -/
def get_chatbot_service (reg : SessionRegistry) (model : String)
    (sid : Option String) (freshUuid : String) :
    ChatbotService × SessionRegistry :=
  match truthyStr sid with
  | none => (reg.default_service, reg)
  | some s =>
      match reg.sessions.lookup s with
      | some svc => (svc, reg)
      | none =>
          let svc := mkChatbotService model (some s) freshUuid
          (svc, { reg with sessions := reg.sessions ++ [(s, svc)] })

/-! ## Helper lemmas -/

theorem minByFold_step (f : String → Nat) (x y : String) (ys : List String) :
    minByFold f x (y :: ys) = minByFold f (if f y < f x then y else x) ys :=
  rfl

theorem minByFold_mem (f : String → Nat) (x : String) (xs : List String) :
    minByFold f x xs ∈ x :: xs := by
  induction xs generalizing x with
  | nil => simp [minByFold]
  | cons y ys ih =>
      rw [minByFold_step]
      by_cases h : f y < f x
      · rw [if_pos h]
        rcases List.mem_cons.1 (ih y) with h' | h'
        · rw [h']; simp
        · simp [h']
      · rw [if_neg h]
        rcases List.mem_cons.1 (ih x) with h' | h'
        · rw [h']; simp
        · simp [h']

theorem minByFold_le (f : String → Nat) (x : String) (xs : List String) :
    ∀ k ∈ x :: xs, f (minByFold f x xs) ≤ f k := by
  induction xs generalizing x with
  | nil =>
      intro k hk
      simp only [List.mem_singleton] at hk
      subst hk
      simp [minByFold]
  | cons y ys ih =>
      intro k hk
      rw [minByFold_step]
      rcases List.mem_cons.1 hk with h1 | h1
      · subst h1
        by_cases h : f y < f k
        · rw [if_pos h]
          exact le_trans (ih y y (by simp)) (le_of_lt h)
        · rw [if_neg h]
          exact ih k k (by simp)
      · rcases List.mem_cons.1 h1 with h2 | h2
        · subst h2
          by_cases h : f k < f x
          · rw [if_pos h]
            exact ih k k (by simp)
          · rw [if_neg h]
            exact le_trans (ih x x (by simp)) (le_of_not_lt h)
        · by_cases h : f y < f x
          · rw [if_pos h]
            exact ih y k (by simp [h2])
          · rw [if_neg h]
            exact ih x k (by simp [h2])

/-! ## Claim C2 — cooldown monotonicity of `mark_key_rate_limited` -/

/-- A one-key pool with no usage and no cooldown. -/
def kmEx : LLMKeyManager :=
  { keys := ["k"], key_usage_count := fun _ => 0,
    last_used_time := fun _ => 0, rate_limited_until := fun _ => 0 }

/-- C2 counterexample: after `mark_key_rate_limited kmEx "k" 0 100`, a second
call at time 10 (before the first cooldown expires) with the shorter
duration 5 leaves the expiry at 15, not at the later expiry 100 — the code
overwrites rather than taking the max, so the shorter call shortens the
active cooldown. -/
theorem C2_counterexample :
    (mark_key_rate_limited kmEx "k" 0 100).rate_limited_until "k" = 100 ∧
    10 < 100 ∧ 5 < 100 ∧
    (mark_key_rate_limited (mark_key_rate_limited kmEx "k" 0 100) "k" 10 5).rate_limited_until "k"
      = 15 ∧
    ¬ ((mark_key_rate_limited (mark_key_rate_limited kmEx "k" 0 100) "k" 10 5).rate_limited_until "k"
        = max 100 15) := by
  refine ⟨by decide, by decide, by decide, by decide, by decide⟩

/-- C2 amended: `mark_key_rate_limited` unconditionally assigns
`now + duration` for a pooled key, so a later call whose expiry
`now2 + d2` is earlier than the active expiry `now1 + d1` leaves the
effective cooldown at `now2 + d2` — it shortens the active cooldown rather
than keeping the later of the two. -/
theorem C2_mark_overwrites (m : LLMKeyManager) (key : String)
    (now1 d1 now2 d2 : Nat) (hk : key ∈ m.keys)
    (hshort : now2 + d2 < now1 + d1) :
    (mark_key_rate_limited m key now1 d1).rate_limited_until key = now1 + d1 ∧
    (mark_key_rate_limited (mark_key_rate_limited m key now1 d1) key now2 d2).rate_limited_until key
      = now2 + d2 ∧
    (mark_key_rate_limited (mark_key_rate_limited m key now1 d1) key now2 d2).rate_limited_until key
      < (mark_key_rate_limited m key now1 d1).rate_limited_until key := by
  refine ⟨?_, ?_, ?_⟩ <;> simp [mark_key_rate_limited, hk, hshort]

/-- Witness for C2_mark_overwrites at the concrete pool `kmEx`. -/
theorem C2_mark_overwrites_witness :
    (mark_key_rate_limited kmEx "k" 0 100).rate_limited_until "k" = 0 + 100 ∧
    (mark_key_rate_limited (mark_key_rate_limited kmEx "k" 0 100) "k" 10 5).rate_limited_until "k"
      = 10 + 5 ∧
    (mark_key_rate_limited (mark_key_rate_limited kmEx "k" 0 100) "k" 10 5).rate_limited_until "k"
      < (mark_key_rate_limited kmEx "k" 0 100).rate_limited_until "k" := by
  have h := C2_mark_overwrites kmEx "k" 0 100 10 5 (by decide) (by decide)
  exact h

/-! ## Claim C5 — `get_random_key` never fails on a non-empty pool -/

/-- C5: for a non-empty key list, `get_random_key` returns (never raises) a
key of the pool: an available one when any exists, otherwise the key with
minimal `rate_limited_until`; the returned key's usage count is bumped by
exactly one, its last-used time becomes `now`, and the key list is
untouched (the empty-pool error branch is unreachable). -/
theorem C5_get_random_key_total (m : LLMKeyManager) (now choice : Nat)
    (hne : m.keys ≠ []) :
    ∃ key m', get_random_key m now choice = some (key, m') ∧
      key ∈ m.keys ∧
      (availableKeys m now ≠ [] → key ∈ availableKeys m now) ∧
      (availableKeys m now = [] →
        ∀ k ∈ m.keys, m.rate_limited_until key ≤ m.rate_limited_until k) ∧
      m'.key_usage_count key = m.key_usage_count key + 1 ∧
      m'.last_used_time key = now ∧
      m'.rate_limited_until = m.rate_limited_until ∧
      m'.keys = m.keys := by
  by_cases hav : availableKeys m now = []
  · rcases hx : m.keys with _ | ⟨x, xs⟩
    · exact absurd hx hne
    · have hmin : minKeyBy m.keys m.rate_limited_until =
          some (minByFold m.rate_limited_until x xs) := by
        rw [hx]; rfl
      have heq : get_random_key m now choice =
          some (minByFold m.rate_limited_until x xs,
            bumpUsage m (minByFold m.rate_limited_until x xs) now) := by
        unfold get_random_key
        rw [if_neg hne, if_pos hav, hmin]
      refine ⟨minByFold m.rate_limited_until x xs, _, heq, ?_, ?_, ?_, ?_, ?_, ?_, ?_⟩
      · exact minByFold_mem _ x xs
      · intro h; exact absurd hav h
      · intro _ k hk
        exact minByFold_le _ x xs k hk
      · simp [bumpUsage]
      · simp [bumpUsage]
      · rfl
      · exact hx
  · have hlen : 0 < (availableKeys m now).length :=
      List.length_pos.2 hav
    have hidx : choice % (availableKeys m now).length <
        (availableKeys m now).length := Nat.mod_lt _ hlen
    have hget : (availableKeys m now)[choice % (availableKeys m now).length]? =
        some ((availableKeys m now).get
          ⟨choice % (availableKeys m now).length, hidx⟩) :=
      List.getElem?_eq_getElem hidx
    have heq : get_random_key m now choice =
        some ((availableKeys m now).get
            ⟨choice % (availableKeys m now).length, hidx⟩,
          bumpUsage m
            ((availableKeys m now).get
              ⟨choice % (availableKeys m now).length, hidx⟩)
            now) := by
      unfold get_random_key
      rw [if_neg hne, if_neg hav, hget]
    have hmem : (availableKeys m now).get
          ⟨choice % (availableKeys m now).length, hidx⟩
        ∈ availableKeys m now := List.getElem_mem hidx
    refine ⟨_, _, heq, ?_, ?_, ?_, ?_, ?_, ?_, ?_⟩
    · exact (List.mem_filter.1 hmem).1
    · intro _; exact hmem
    · intro h; exact absurd h hav
    · simp [bumpUsage]
    · simp [bumpUsage]
    · rfl
    · rfl

/-- Two-key pool for the C5 witness: both keys cooling down until time 50
and 30 respectively. -/
def kmEx2 : LLMKeyManager :=
  { keys := ["a", "b"], key_usage_count := fun _ => 0,
    last_used_time := fun _ => 0,
    rate_limited_until := fun k => if k = "a" then 50 else 30 }

/-- Witness for C5 at `kmEx2`, time 10 (both keys rate-limited). -/
theorem C5_get_random_key_total_witness :
    kmEx2.keys ≠ [] ∧
    (∃ key m', get_random_key kmEx2 10 0 = some (key, m') ∧
      key ∈ kmEx2.keys ∧
      (availableKeys kmEx2 10 ≠ [] → key ∈ availableKeys kmEx2 10) ∧
      (availableKeys kmEx2 10 = [] →
        ∀ k ∈ kmEx2.keys,
          kmEx2.rate_limited_until key ≤ kmEx2.rate_limited_until k) ∧
      m'.key_usage_count key = kmEx2.key_usage_count key + 1 ∧
      m'.last_used_time key = 10 ∧
      m'.rate_limited_until = kmEx2.rate_limited_until ∧
      m'.keys = kmEx2.keys) :=
  ⟨by decide, C5_get_random_key_total kmEx2 10 0 (by decide)⟩

/-! ## Claim C10 — `_load_keys_from_env` stops at the first gap and
deduplicates the unnumbered key -/

theorem loadNumbered_before_gap (env : Env) (g : Nat)
    (hg : truthyStr (env.numbered g) = none) :
    ∀ fuel i, i ≤ g → ∀ k ∈ loadNumbered env fuel i,
      ∃ j, i ≤ j ∧ j < g ∧ truthyStr (env.numbered j) = some k := by
  intro fuel
  induction fuel with
  | zero => intro i _ k hk; simp [loadNumbered] at hk
  | succ fuel ih =>
      intro i hi k hk
      unfold loadNumbered at hk
      rcases ht : truthyStr (env.numbered i) with _ | v
      · rw [ht] at hk; simp at hk
      · rw [ht] at hk
        have hig : i ≠ g := by
          intro h; rw [h, hg] at ht; exact Option.noConfusion ht
        have hig' : i < g := lt_of_le_of_ne hi hig
        rcases List.mem_cons.1 hk with h' | h'
        · exact ⟨i, le_refl i, hig', by rw [ht, h']⟩
        · rcases ih (i + 1) hig' k h' with ⟨j, hj1, hj2, hj3⟩
          exact ⟨j, le_trans (Nat.le_succ i) hj1, hj2, hj3⟩

theorem load_keys_single_none (env : Env) (fuel : Nat)
    (hs : truthyStr env.single = none) :
    load_keys_from_env env fuel = loadNumbered env fuel 1 := by
  unfold load_keys_from_env
  rw [hs]

theorem load_keys_single_mem (env : Env) (fuel : Nat) (s : String)
    (hs : truthyStr env.single = some s) (hm : s ∈ loadNumbered env fuel 1) :
    load_keys_from_env env fuel = loadNumbered env fuel 1 := by
  unfold load_keys_from_env
  rw [hs]
  exact if_pos hm

theorem load_keys_single_notmem (env : Env) (fuel : Nat) (s : String)
    (hs : truthyStr env.single = some s) (hm : s ∉ loadNumbered env fuel 1) :
    load_keys_from_env env fuel = loadNumbered env fuel 1 ++ [s] := by
  unfold load_keys_from_env
  rw [hs]
  exact if_neg hm

/-- C10: with a gap at index `g` (no truthy value for `PREFIX_g`), every
numbered key collected comes from an index in `[1, g)` — a key at an index
past the gap is never loaded — and every loaded key is such a numbered key
or the unnumbered key; the unnumbered key is appended only when absent from
the numbered keys, so the append never brings its multiplicity above the
maximum of its numbered multiplicity and one. -/
theorem C10_load_keys (env : Env) (fuel g : Nat) (hg1 : 1 ≤ g)
    (hg : truthyStr (env.numbered g) = none) :
    (∀ k ∈ load_keys_from_env env fuel,
      (∃ j, 1 ≤ j ∧ j < g ∧ truthyStr (env.numbered j) = some k) ∨
        truthyStr env.single = some k) ∧
    (∀ s, truthyStr env.single = some s →
      (s ∈ loadNumbered env fuel 1 →
        load_keys_from_env env fuel = loadNumbered env fuel 1) ∧
      (s ∉ loadNumbered env fuel 1 →
        load_keys_from_env env fuel = loadNumbered env fuel 1 ++ [s] ∧
          (load_keys_from_env env fuel).count s = 1)) ∧
    (truthyStr env.single = none →
      load_keys_from_env env fuel = loadNumbered env fuel 1) := by
  refine ⟨?_, ?_, ?_⟩
  · intro k hk
    rcases hs : truthyStr env.single with _ | s
    · rw [load_keys_single_none env fuel hs] at hk
      left
      exact loadNumbered_before_gap env g hg fuel 1 hg1 k hk
    · by_cases hmem : s ∈ loadNumbered env fuel 1
      · rw [load_keys_single_mem env fuel s hs hmem] at hk
        left
        exact loadNumbered_before_gap env g hg fuel 1 hg1 k hk
      · rw [load_keys_single_notmem env fuel s hs hmem] at hk
        rcases List.mem_append.1 hk with h' | h'
        · left
          exact loadNumbered_before_gap env g hg fuel 1 hg1 k h'
        · right
          simp at h'
          rw [h']
  · intro s hs
    constructor
    · intro hmem
      exact load_keys_single_mem env fuel s hs hmem
    · intro hmem
      have heq := load_keys_single_notmem env fuel s hs hmem
      refine ⟨heq, ?_⟩
      rw [heq, List.count_append]
      rw [List.count_eq_zero.2 hmem]
      simp
  · intro hs
    exact load_keys_single_none env fuel hs

/-- Environment for the C10 witness: `PREFIX_1`, `PREFIX_2` set, index 3
empty (the gap), `PREFIX_4` set past the gap, unnumbered key equal to the
second numbered key. -/
def envEx : Env :=
  { numbered := fun i =>
      if i = 1 then some "x1" else if i = 2 then some "x2"
      else if i = 4 then some "x4" else none,
    single := some "x2" }

/-- Witness for C10 at `envEx` with the gap at index 3. -/
theorem C10_load_keys_witness :
    1 ≤ 3 ∧ truthyStr (envEx.numbered 3) = none ∧
    ((∀ k ∈ load_keys_from_env envEx 50,
        (∃ j, 1 ≤ j ∧ j < 3 ∧ truthyStr (envEx.numbered j) = some k) ∨
          truthyStr envEx.single = some k) ∧
      (∀ s, truthyStr envEx.single = some s →
        (s ∈ loadNumbered envEx 50 1 →
          load_keys_from_env envEx 50 = loadNumbered envEx 50 1) ∧
        (s ∉ loadNumbered envEx 50 1 →
          load_keys_from_env envEx 50 = loadNumbered envEx 50 1 ++ [s] ∧
            (load_keys_from_env envEx 50).count s = 1)) ∧
      (truthyStr envEx.single = none →
        load_keys_from_env envEx 50 = loadNumbered envEx 50 1)) :=
  ⟨by decide, by decide, C10_load_keys envEx 50 3 (by decide) (by decide)⟩

/-! ## Claim C8 — `_process_tool_call` never raises and appends exactly
on success -/

/-- C8: an unknown tool name, or a tool whose execution fails, leaves
`contents` exactly unchanged (and the function returns rather than
raising, being total); on success exactly the model's function call and the
function response are appended, in that order. -/
theorem C8_process_tool_call (operation_tools : List Tool) (tc : ToolCall)
    (contents : List Content) :
    (operation_tools.find? (fun t => t.name = tc.name) = none →
      process_tool_call operation_tools tc contents = contents) ∧
    (∀ tool e, operation_tools.find? (fun t => t.name = tc.name) = some tool →
      tool.run tc.args = Except.error e →
      process_tool_call operation_tools tc contents = contents) ∧
    (∀ tool r, operation_tools.find? (fun t => t.name = tc.name) = some tool →
      tool.run tc.args = Except.ok r →
      process_tool_call operation_tools tc contents =
        contents ++ [Content.modelFunctionCall tc.name tc.args,
                     Content.userFunctionResponse tc.name r]) := by
  refine ⟨?_, ?_, ?_⟩
  · intro h
    unfold process_tool_call
    rw [h]
  · intro tool e hf hr
    unfold process_tool_call
    rw [hf]
    simp [hr]
  · intro tool r hf hr
    unfold process_tool_call
    rw [hf]
    simp [hr]

/-- Tool registry for the C8 witness: a `lookupPrice` tool that succeeds
and a `failingTool` that raises. -/
def toolsEx : List Tool :=
  [{ name := "lookupPrice", run := fun _ => Except.ok "42" },
   { name := "failingTool", run := fun _ => Except.error "boom" }]

/-- Witness for C8: the unknown-tool call and the failing-tool call leave
the conversation unchanged; the successful call appends the two entries. -/
theorem C8_process_tool_call_witness :
    process_tool_call toolsEx ⟨"unknownTool", "a"⟩ [Content.userText "q"] =
      [Content.userText "q"] ∧
    process_tool_call toolsEx ⟨"failingTool", "a"⟩ [Content.userText "q"] =
      [Content.userText "q"] ∧
    process_tool_call toolsEx ⟨"lookupPrice", "a"⟩ [Content.userText "q"] =
      [Content.userText "q"] ++
        [Content.modelFunctionCall "lookupPrice" "a",
         Content.userFunctionResponse "lookupPrice" "42"] := by
  refine ⟨?_, ?_, ?_⟩
  · exact (C8_process_tool_call toolsEx ⟨"unknownTool", "a"⟩
      [Content.userText "q"]).1 rfl
  · exact (C8_process_tool_call toolsEx ⟨"failingTool", "a"⟩
      [Content.userText "q"]).2.1 ⟨"failingTool", fun _ => Except.error "boom"⟩
      "boom" rfl rfl
  · exact (C8_process_tool_call toolsEx ⟨"lookupPrice", "a"⟩
      [Content.userText "q"]).2.2 ⟨"lookupPrice", fun _ => Except.ok "42"⟩
      "42" rfl rfl

/-! ## Claim C7 — get-or-create semantics of `get_chatbot_service` -/

theorem lookup_none_imp_ne (s : String) :
    ∀ l : List (String × ChatbotService), l.lookup s = none →
      ∀ p ∈ l, p.1 ≠ s := by
  intro l
  induction l with
  | nil => intro _ p hp; simp at hp
  | cons a t ih =>
      intro hl p hp
      by_cases h : s = a.1
      · exfalso
        have : (a :: t).lookup s = some a.2 := by
          simp [List.lookup, h]
        rw [hl] at this
        exact Option.noConfusion this
      · have ht : t.lookup s = none := by
          have hb : (s == a.1) = false := by
            exact beq_false_of_ne h
          simpa [List.lookup, hb] using hl
        rcases List.mem_cons.1 hp with h' | h'
        · subst h'
          intro he
          exact h he.symm
        · exact ih ht p h'

theorem lookup_append_singleton (s : String) (v : ChatbotService) :
    ∀ l : List (String × ChatbotService), l.lookup s = none →
      (l ++ [(s, v)]).lookup s = some v := by
  intro l
  induction l with
  | nil => simp [List.lookup]
  | cons a t ih =>
      intro hl
      by_cases h : s = a.1
      · exfalso
        have : (a :: t).lookup s = some a.2 := by
          simp [List.lookup, h]
        rw [hl] at this
        exact Option.noConfusion this
      · have hb : (s == a.1) = false := beq_false_of_ne h
        have ht : t.lookup s = none := by
          simpa [List.lookup, hb] using hl
        simpa [List.lookup, hb] using ih ht

/-- Registry for the C7 counterexample: the module-level default service
(its id being the uuid minted at import time) and an empty session dict. -/
def regEx : SessionRegistry :=
  { default_service :=
      { model_name := "gemini", session_id := "uuid-default",
        conversation_history := [] },
    sessions := [] }

/-- C7 counterexample: two calls with no session id do *not* return two
distinct sessions with distinct generated ids — both return the one shared
`default_chatbot_service`, with the same session id, and the registry is
not touched. -/
theorem C7_counterexample :
    (get_chatbot_service regEx "m" none "u1").1 =
      (get_chatbot_service (get_chatbot_service regEx "m" none "u1").2
        "m" none "u2").1 ∧
    (get_chatbot_service regEx "m" none "u1").1.session_id =
      (get_chatbot_service (get_chatbot_service regEx "m" none "u1").2
        "m" none "u2").1.session_id ∧
    ¬ ((get_chatbot_service regEx "m" none "u1").1.session_id ≠
        (get_chatbot_service (get_chatbot_service regEx "m" none "u1").2
          "m" none "u2").1.session_id) := by
  refine ⟨rfl, rfl, ?_⟩
  intro h
  exact h rfl

/-- C7 amended: a falsy session id always returns the shared default
service without touching the registry (so two id-less calls return the
identical object with the identical id, not two fresh sessions); two calls
with the same truthy id return the identical service object, the second
leaving the registry unchanged; and get-or-create preserves the invariant
that the registry holds at most one service per session id. -/
theorem C7_get_or_create (reg : SessionRegistry) (model : String)
    (s freshUuid freshUuid' : String) (hs : s ≠ "") :
    (∀ sid, truthyStr sid = none →
      get_chatbot_service reg model sid freshUuid =
        (reg.default_service, reg)) ∧
    ((get_chatbot_service
        (get_chatbot_service reg model (some s) freshUuid).2
        model (some s) freshUuid').1 =
      (get_chatbot_service reg model (some s) freshUuid).1 ∧
     (get_chatbot_service
        (get_chatbot_service reg model (some s) freshUuid).2
        model (some s) freshUuid').2 =
      (get_chatbot_service reg model (some s) freshUuid).2) ∧
    (∀ sid, (reg.sessions.map Prod.fst).Nodup →
      (((get_chatbot_service reg model sid freshUuid).2).sessions.map
        Prod.fst).Nodup) := by
  have hts : truthyStr (some s) = some s := by
    simp [truthyStr, hs]
  refine ⟨?_, ?_, ?_⟩
  · intro sid hsid
    unfold get_chatbot_service
    rw [hsid]
  · rcases hl : reg.sessions.lookup s with _ | svc
    · have h1 : get_chatbot_service reg model (some s) freshUuid =
          (mkChatbotService model (some s) freshUuid,
           { reg with sessions :=
              reg.sessions ++ [(s, mkChatbotService model (some s) freshUuid)] }) := by
        simp [get_chatbot_service, hts, hl]
      have h2 : (reg.sessions ++
          [(s, mkChatbotService model (some s) freshUuid)]).lookup s =
          some (mkChatbotService model (some s) freshUuid) :=
        lookup_append_singleton s _ reg.sessions hl
      constructor
      · rw [h1]
        simp [get_chatbot_service, hts, h2]
      · rw [h1]
        simp [get_chatbot_service, hts, h2]
    · have h1 : get_chatbot_service reg model (some s) freshUuid =
          (svc, reg) := by
        simp [get_chatbot_service, hts, hl]
      constructor
      · rw [h1]
        simp [get_chatbot_service, hts, hl]
      · rw [h1]
        simp [get_chatbot_service, hts, hl]
  · intro sid hnd
    rcases hts' : truthyStr sid with _ | s'
    · simpa [get_chatbot_service, hts'] using hnd
    · rcases hl : reg.sessions.lookup s' with _ | svc
      · have h1 : (get_chatbot_service reg model sid freshUuid).2.sessions =
            reg.sessions ++ [(s', mkChatbotService model (some s') freshUuid)] := by
          simp [get_chatbot_service, hts', hl]
        rw [h1, List.map_append]
        rw [List.nodup_append]
        refine ⟨hnd, by simp, ?_⟩
        intro a ha hb
        simp at hb
        rcases List.mem_map.1 ha with ⟨p, hp, hpa⟩
        exact lookup_none_imp_ne s' reg.sessions hl p hp (by rw [hpa, hb])
      · have h1 : (get_chatbot_service reg model sid freshUuid).2 = reg := by
          simp [get_chatbot_service, hts', hl]
        rw [h1]
        exact hnd

/-- Witness for C7 amended at the concrete registry `regEx` and id "s1". -/
theorem C7_get_or_create_witness :
    (∀ sid, truthyStr sid = none →
      get_chatbot_service regEx "m" sid "u1" =
        (regEx.default_service, regEx)) ∧
    ((get_chatbot_service
        (get_chatbot_service regEx "m" (some "s1") "u1").2
        "m" (some "s1") "u2").1 =
      (get_chatbot_service regEx "m" (some "s1") "u1").1 ∧
     (get_chatbot_service
        (get_chatbot_service regEx "m" (some "s1") "u1").2
        "m" (some "s1") "u2").2 =
      (get_chatbot_service regEx "m" (some "s1") "u1").2) ∧
    (∀ sid, (regEx.sessions.map Prod.fst).Nodup →
      (((get_chatbot_service regEx "m" sid "u1").2).sessions.map
        Prod.fst).Nodup) :=
  C7_get_or_create regEx "m" "s1" "u1" "u2" (by decide)

/-! ## Unfolding lemmas for the gateway model -/

theorem acq_stream (cfg : LLMServiceCfg) (sched : Nat → AttemptOutcome)
    (fuel n rc mi : Nat) (chunks : List (Option String))
    (hsched : sched n = AttemptOutcome.stream chunks) :
    acquireLoop cfg sched (fuel + 1) n rc mi =
      some ([Ev.semAcquire, Ev.refreshKey, Ev.toolCall mi, Ev.streamCall mi,
             Ev.semRelease], n + 1, AcqResult.gotStream chunks rc mi) := by
  unfold acquireLoop
  rw [hsched]

theorem acq_other (cfg : LLMServiceCfg) (sched : Nat → AttemptOutcome)
    (fuel n rc mi : Nat)
    (hsched : sched n = AttemptOutcome.otherError) :
    acquireLoop cfg sched (fuel + 1) n rc mi =
      some ([Ev.semAcquire, Ev.refreshKey, Ev.toolCall mi, Ev.semRelease],
            n + 1, AcqResult.yieldedNone) := by
  unfold acquireLoop
  rw [hsched]

theorem acq_rl_raise (cfg : LLMServiceCfg) (sched : Nat → AttemptOutcome)
    (fuel n rc mi : Nat) (hevs : List Ev)
    (hsched : sched n = AttemptOutcome.rateLimited)
    (hh : handle_rate_limit cfg rc mi = (hevs, none)) :
    acquireLoop cfg sched (fuel + 1) n rc mi =
      some ([Ev.semAcquire, Ev.refreshKey, Ev.toolCall mi, Ev.semRelease,
             Ev.semAcquire] ++ hevs ++ [Ev.semRelease], n + 1,
            AcqResult.raisedOut) := by
  unfold acquireLoop
  rw [hsched]
  simp [hh]

theorem acq_rl_next (cfg : LLMServiceCfg) (sched : Nat → AttemptOutcome)
    (fuel n rc mi rc' mi' : Nat) (hevs : List Ev)
    (hsched : sched n = AttemptOutcome.rateLimited)
    (hh : handle_rate_limit cfg rc mi = (hevs, some (rc', mi'))) :
    acquireLoop cfg sched (fuel + 1) n rc mi =
      (acquireLoop cfg sched fuel (n + 1) rc' mi').map
        (fun p => ([Ev.semAcquire, Ev.refreshKey, Ev.toolCall mi,
                    Ev.semRelease, Ev.semAcquire] ++ hevs ++ [Ev.semRelease]
                     ++ p.1, p.2)) := by
  rcases hrec : acquireLoop cfg sched fuel (n + 1) rc' mi' with _ | ⟨evs, n2, r⟩
  · unfold acquireLoop
    rw [hsched]
    simp only [hh, hrec, Option.map_none']
  · unfold acquireLoop
    rw [hsched]
    simp only [hh, hrec, Option.map_some']

theorem generate_raisedOut (cfg : LLMServiceCfg)
    (sched : Nat → AttemptOutcome) (fuel n n' : Nat) (evs : List Ev)
    (hacq : acquireLoop cfg sched (fuel + 1) n 0 0 =
      some (evs, n', AcqResult.raisedOut)) :
    generate cfg sched (fuel + 1) n =
      some ⟨[], TermStatus.raised, n', evs⟩ := by
  unfold generate
  rw [hacq]

theorem generate_yieldedNone (cfg : LLMServiceCfg)
    (sched : Nat → AttemptOutcome) (fuel n n' : Nat) (evs : List Ev)
    (hacq : acquireLoop cfg sched (fuel + 1) n 0 0 =
      some (evs, n', AcqResult.yieldedNone)) :
    generate cfg sched (fuel + 1) n =
      some ⟨[none], TermStatus.normal, n', evs⟩ := by
  unfold generate
  rw [hacq]

theorem generate_stream_noguard (cfg : LLMServiceCfg)
    (sched : Nat → AttemptOutcome) (fuel n n' rc mi ec : Nat)
    (evs : List Ev) (chunks : List (Option String)) (ts : List String)
    (hy : Bool)
    (hacq : acquireLoop cfg sched (fuel + 1) n 0 0 =
      some (evs, n', AcqResult.gotStream chunks rc mi))
    (hemit : emitChunks chunks 0 false = (ts, ec, hy))
    (hguard : ¬ (3 ≤ ec ∧ hy = false)) :
    generate cfg sched (fuel + 1) n =
      some ⟨ts.map Option.some, TermStatus.normal, n', evs⟩ := by
  unfold generate
  rw [hacq]
  simp [hemit, hguard]

theorem generate_stream_guard_exhaust (cfg : LLMServiceCfg)
    (sched : Nat → AttemptOutcome) (fuel n n' rc mi ec : Nat)
    (evs : List Ev) (chunks : List (Option String)) (ts : List String)
    (hacq : acquireLoop cfg sched (fuel + 1) n 0 0 =
      some (evs, n', AcqResult.gotStream chunks rc mi))
    (hemit : emitChunks chunks 0 false = (ts, ec, false))
    (hec : 3 ≤ ec)
    (hrc : cfg.max_retries ≤ rc + 1)
    (hmi : cfg.num_backups + 1 ≤ mi + 1) :
    generate cfg sched (fuel + 1) n =
      some ⟨ts.map Option.some ++ [none], TermStatus.normal, n', evs⟩ := by
  unfold generate
  rw [hacq]
  simp [hemit, hec, hrc, hmi]

theorem generate_stream_guard_retry (cfg : LLMServiceCfg)
    (sched : Nat → AttemptOutcome) (fuel n n' rc mi ec : Nat)
    (evs : List Ev) (chunks : List (Option String)) (ts : List String)
    (hacq : acquireLoop cfg sched (fuel + 1) n 0 0 =
      some (evs, n', AcqResult.gotStream chunks rc mi))
    (hemit : emitChunks chunks 0 false = (ts, ec, false))
    (hec : 3 ≤ ec)
    (hcont : ¬ cfg.max_retries ≤ rc + 1 ∨
      (cfg.max_retries ≤ rc + 1 ∧ ¬ cfg.num_backups + 1 ≤ mi + 1)) :
    generate cfg sched (fuel + 1) n =
      (generate cfg sched fuel n').map
        (fun g => ⟨ts.map Option.some ++
                     (g.yields.filterMap id).map Option.some ++
                     (if g.status = TermStatus.raised then [none] else []),
                   TermStatus.normal, g.nextAttempt, evs ++ g.events⟩) := by
  rcases hrec : generate cfg sched fuel n' with _ | g
  · unfold generate
    rw [hacq]
    rcases hcont with h | ⟨h1, h2⟩
    · simp [hemit, hec, h, hrec]
    · simp [hemit, hec, h1, h2, hrec]
  · unfold generate
    rw [hacq]
    rcases hcont with h | ⟨h1, h2⟩
    · simp [hemit, hec, h, hrec]
    · simp [hemit, hec, h1, h2, hrec]

/-! ## Behaviour of `emitChunks` -/

theorem emitChunks_after_text (chunks : List (Option String)) :
    ∀ ec : Nat, ∃ ec',
      emitChunks chunks ec true = (chunks.filterMap truthyStr, ec', true) := by
  induction chunks with
  | nil => intro ec; exact ⟨ec, rfl⟩
  | cons c rest ih =>
      intro ec
      rcases ht : truthyStr c with _ | t
      · rcases ih (ec + 1) with ⟨ec', hec⟩
        refine ⟨ec', ?_⟩
        simp only [emitChunks, process_function_call_chunk, ht]
        simp [hec, ht]
      · rcases ih 0 with ⟨ec', hec⟩
        refine ⟨ec', ?_⟩
        simp only [emitChunks, process_function_call_chunk, ht]
        simp [hec, ht]

theorem emitChunks_no_lead_gap (chunks : List (Option String)) :
    ∀ ec : Nat,
      (chunks.takeWhile (fun c => (truthyStr c).isNone)).length + ec < 3 →
      ∃ ec' hy',
        emitChunks chunks ec false = (chunks.filterMap truthyStr, ec', hy') ∧
          (hy' = false → ec' < 3) := by
  induction chunks with
  | nil =>
      intro ec h
      exact ⟨ec, false, rfl, fun _ => by simpa using h⟩
  | cons c rest ih =>
      intro ec h
      rcases ht : truthyStr c with _ | t
      · have hcons : ((c :: rest).takeWhile
            (fun c => (truthyStr c).isNone)).length =
            (rest.takeWhile (fun c => (truthyStr c).isNone)).length + 1 := by
          simp [List.takeWhile_cons, ht]
        rw [hcons] at h
        have hlt : ec + 1 < 3 := by omega
        rcases ih (ec + 1) (by omega) with ⟨ec', hy', heq, himp⟩
        refine ⟨ec', hy', ?_, himp⟩
        simp only [emitChunks, process_function_call_chunk, ht]
        split
        · rename_i hcond
          exfalso
          simp at hcond
          omega
        · simp [heq, ht]
      · rcases emitChunks_after_text rest 0 with ⟨ec', hec⟩
        refine ⟨ec', true, ?_, by simp⟩
        simp only [emitChunks, process_function_call_chunk, ht]
        simp [hec, ht]

theorem emitChunks_guard_nil (chunks : List (Option String)) :
    ∀ (ec : Nat) (ts : List String) (ecf : Nat),
      emitChunks chunks ec false = (ts, ecf, false) → ts = [] := by
  induction chunks with
  | nil =>
      intro ec ts ecf h
      have h1 : ([] : List String) = ts := congrArg Prod.fst h
      exact h1.symm
  | cons c rest ih =>
      intro ec ts ecf h
      rcases ht : truthyStr c with _ | t
      · simp only [emitChunks, process_function_call_chunk, ht] at h
        split at h
        · have h1 : ([] : List String) = ts := congrArg Prod.fst h
          exact h1.symm
        · exact ih (ec + 1) ts ecf h
      · simp only [emitChunks, process_function_call_chunk, ht] at h
        rcases emitChunks_after_text rest 0 with ⟨ec2, hec⟩
        rw [hec] at h
        simp at h

/-! ## Concrete configurations and schedules for the gateway claims -/

/-- The default service configuration: `max_retries = 3`,
`retry_delay = 1`, `rate_limit_duration = 60`, one backup model. -/
def cfgEx : LLMServiceCfg :=
  { max_retries := 3, retry_delay := 1, rate_limit_duration := 60,
    num_backups := 1 }

/-- A configuration with `max_retries = 1` and no backup models. -/
def cfgB : LLMServiceCfg :=
  { max_retries := 1, retry_delay := 1, rate_limit_duration := 60,
    num_backups := 0 }

/-- Every upstream call raises a rate-limit-class error. -/
def allRL : Nat → AttemptOutcome := fun _ => AttemptOutcome.rateLimited

/-- Every attempt opens a stream of three textless chunks. -/
def allEmpty : Nat → AttemptOutcome :=
  fun _ => AttemptOutcome.stream [none, none, none]

/-- Attempt `n` opens a persistently textless stream; every later attempt
streams one text chunk. -/
def schedOneEmpty (n : Nat) : Nat → AttemptOutcome :=
  fun k => if k = n then AttemptOutcome.stream [none, none, none]
           else AttemptOutcome.stream [some "ok"]

def isMarkRL : Ev → Bool
  | Ev.markRL _ => true
  | _ => false

def isSleep : Ev → Bool
  | Ev.sleep _ => true
  | _ => false

/-- Observation used by the C1 counterexample: the model index of each
attempt of a run. -/
def attemptsOf (g : GenOut) : List Nat := modelAttempts g.events

/-- Observation used by the C3 counterexample: what the consumer sees —
the yielded values and how the generator terminated. -/
def yieldsStatusOf (g : GenOut) : List (Option String) × TermStatus :=
  (g.yields, g.status)

/-- Observation used by the C4 counterexample: the yields, the number of
mark-rate-limited events, the number of backoff sleeps, and the per-attempt
model indices of a run. -/
def retryObsOf (g : GenOut) :
    List (Option String) × Nat × Nat × List Nat :=
  (g.yields, g.events.countP isMarkRL, g.events.countP isSleep,
   modelAttempts g.events)

/-! ## Claim C6 — empty-chunk tolerance -/

/-- C6: whenever an attempt's stream has fewer than 3 leading textless
chunks (either a text chunk among the first three, or a short stream),
`generate_content_with_tools` performs no retry: the single attempt is the
whole run, the consumer receives exactly the text chunks of the stream in
order (later runs of textless chunks, of any length, included), and the
generator ends normally.  Text chunks reset the empty-chunk counter and the
guard additionally requires that no text has been yielded, so streams with
text within the threshold are never abandoned. -/
theorem C6_empty_chunk_tolerance (cfg : LLMServiceCfg)
    (sched : Nat → AttemptOutcome) (fuel n : Nat)
    (chunks : List (Option String))
    (hsched : sched n = AttemptOutcome.stream chunks)
    (hlead : (chunks.takeWhile (fun c => (truthyStr c).isNone)).length < 3) :
    generate cfg sched (fuel + 1) n =
      some ⟨(chunks.filterMap truthyStr).map Option.some, TermStatus.normal,
            n + 1,
            [Ev.semAcquire, Ev.refreshKey, Ev.toolCall 0, Ev.streamCall 0,
             Ev.semRelease]⟩ := by
  rcases emitChunks_no_lead_gap chunks 0 (by omega) with ⟨ec', hy', heq, himp⟩
  exact generate_stream_noguard cfg sched fuel n (n + 1) 0 0 ec' _ chunks _
    hy' (acq_stream cfg sched fuel n 0 0 chunks hsched) heq
    (by rintro ⟨h3, hf⟩; exact absurd (himp hf) (by omega))

/-- The stream of property P5: two textless chunks, one text chunk, end. -/
def sched6 : Nat → AttemptOutcome :=
  fun _ => AttemptOutcome.stream [none, none, some "t"]

/-- Witness for C6: the P5 stream (2 empty fragments, then one text
fragment, then end) is not retried and the caller receives exactly the one
text fragment; also a long textless tail after a text chunk does not cause
a retry. -/
theorem C6_empty_chunk_tolerance_witness :
    generate cfgEx sched6 1 0 =
      some ⟨[some "t"], TermStatus.normal, 1,
            [Ev.semAcquire, Ev.refreshKey, Ev.toolCall 0, Ev.streamCall 0,
             Ev.semRelease]⟩ ∧
    generate cfgEx
      (fun _ => AttemptOutcome.stream
        [some "t", none, none, none, none, none]) 1 0 =
      some ⟨[some "t"], TermStatus.normal, 1,
            [Ev.semAcquire, Ev.refreshKey, Ev.toolCall 0, Ev.streamCall 0,
             Ev.semRelease]⟩ :=
  ⟨C6_empty_chunk_tolerance cfgEx sched6 0 0 [none, none, some "t"]
      rfl (by decide),
   C6_empty_chunk_tolerance cfgEx
      (fun _ => AttemptOutcome.stream
        [some "t", none, none, none, none, none]) 0 0
      [some "t", none, none, none, none, none] rfl (by decide)⟩

/-! ## Claim C3 — how exhaustion is surfaced -/

/-- C3 counterexample: with `max_retries = 1`, no backups and every call
rate-limited, the generator ends by *propagating the exception* and yields
nothing at all — no sentinel `None` is delivered, contradicting the claim
that both exhaustion paths surface a yielded `None` followed by normal
termination. -/
theorem C3_counterexample :
    (generate cfgB allRL 20 0).map yieldsStatusOf =
      some ([], TermStatus.raised) ∧
    ¬ ((generate cfgB allRL 20 0).map yieldsStatusOf =
        some ([none], TermStatus.normal)) := by
  refine ⟨by decide, by decide⟩

/-- C3 amended: the two exhaustion paths surface differently.  When the
acquisition loop ends with the rate-limit exhaustion re-raise, the
generator propagates the exception and yields nothing (no sentinel).  When
the empty-stream guard fires with the chain exhausted, the generator yields
the sentinel `None` and terminates normally. -/
theorem C3_exhaustion_surfacing :
    (∀ (cfg : LLMServiceCfg) (sched : Nat → AttemptOutcome)
       (fuel n n' : Nat) (evs : List Ev),
       acquireLoop cfg sched (fuel + 1) n 0 0 =
         some (evs, n', AcqResult.raisedOut) →
       generate cfg sched (fuel + 1) n =
         some ⟨[], TermStatus.raised, n', evs⟩) ∧
    (∀ (cfg : LLMServiceCfg) (sched : Nat → AttemptOutcome)
       (fuel n n' rc mi ec : Nat) (evs : List Ev)
       (chunks : List (Option String)) (ts : List String),
       acquireLoop cfg sched (fuel + 1) n 0 0 =
         some (evs, n', AcqResult.gotStream chunks rc mi) →
       emitChunks chunks 0 false = (ts, ec, false) →
       3 ≤ ec → cfg.max_retries ≤ rc + 1 →
       cfg.num_backups + 1 ≤ mi + 1 →
       generate cfg sched (fuel + 1) n =
         some ⟨[none], TermStatus.normal, n', evs⟩) := by
  constructor
  · intro cfg sched fuel n n' evs hacq
    exact generate_raisedOut cfg sched fuel n n' evs hacq
  · intro cfg sched fuel n n' rc mi ec evs chunks ts hacq hemit hec hrc hmi
    have hts : ts = [] := emitChunks_guard_nil chunks 0 ts ec hemit
    subst hts
    have h := generate_stream_guard_exhaust cfg sched fuel n n' rc mi ec
      evs chunks [] hacq hemit hec hrc hmi
    simpa using h

/-- Witness for C3 amended: the rate-limit exhaustion re-raise at `cfgB`
under the all-rate-limited schedule, and the empty-guard exhaustion at
`cfgB` under the all-empty schedule. -/
theorem C3_exhaustion_surfacing_witness :
    generate cfgB allRL 2 0 =
      some ⟨[], TermStatus.raised, 2,
            [Ev.semAcquire, Ev.refreshKey, Ev.toolCall 0, Ev.semRelease,
             Ev.semAcquire, Ev.markRL 60, Ev.sleep 1, Ev.semRelease,
             Ev.semAcquire, Ev.refreshKey, Ev.toolCall 0, Ev.semRelease,
             Ev.semAcquire, Ev.markRL 60, Ev.semRelease]⟩ ∧
    generate cfgB allEmpty 1 0 =
      some ⟨[none], TermStatus.normal, 1,
            [Ev.semAcquire, Ev.refreshKey, Ev.toolCall 0, Ev.streamCall 0,
             Ev.semRelease]⟩ :=
  ⟨C3_exhaustion_surfacing.1 cfgB allRL 1 0 2 _ (by decide),
   C3_exhaustion_surfacing.2 cfgB allEmpty 0 0 1 0 0 3 _
     [none, none, none] [] (by decide) (by decide) (by decide) (by decide)
     (by decide)⟩

/-! ## Claim C4 — what the empty-stream guard actually does -/

/-- C4 counterexample: a first attempt whose stream is persistently
textless, followed by a good attempt.  The retry happens, but no key is
marked rate-limited and no backoff sleep is performed anywhere in the run
(contradicting "treated identically to RateLimitError"), and the retried
attempt runs with model index 0 again via a fresh recursive call. -/
theorem C4_counterexample :
    (generate cfgEx (schedOneEmpty 0) 10 0).map retryObsOf =
      some ([some "ok"], 0, 0, [0, 0]) := by
  decide

/-- C4 amended: the empty-stream guard retries through a fresh recursive
call that resets the retry counter and model index and neither marks the
credential rate-limited nor sleeps; consequently (first conjunct), for any
configuration with `max_retries ≥ 2`, a persistently empty stream recurses
forever — `generate` returns for *no* amount of fuel, instead of
exhausting the chain after at most `max_retries` retries per model.  The
second conjunct exhibits the retried attempt: one empty-stream attempt
followed by a successful one yields exactly the text, with zero
mark-rate-limited events, zero sleeps, and model index 0 used by both
attempts. -/
theorem C4_empty_stream_retry_policy :
    (∀ (cfg : LLMServiceCfg) (fuel n : Nat), 2 ≤ cfg.max_retries →
       generate cfg allEmpty fuel n = none) ∧
    (∀ (cfg : LLMServiceCfg) (fuel n : Nat), 2 ≤ cfg.max_retries →
       (generate cfg (schedOneEmpty n) (fuel + 2) n).map retryObsOf =
         some ([some "ok"], 0, 0, [0, 0])) := by
  constructor
  · intro cfg fuel
    induction fuel with
    | zero => intro n _; rfl
    | succ fuel ih =>
        intro n h2
        have hacq := acq_stream cfg allEmpty fuel n 0 0 [none, none, none]
          rfl
        have hret := generate_stream_guard_retry cfg allEmpty fuel n (n + 1)
          0 0 3 _ [none, none, none] [] hacq rfl (le_refl 3)
          (Or.inl (by omega))
        rw [hret, ih (n + 1) h2]
        rfl
  · intro cfg fuel n h2
    have hs1 : schedOneEmpty n n = AttemptOutcome.stream [none, none, none] := by
      simp [schedOneEmpty]
    have hs2 : schedOneEmpty n (n + 1) = AttemptOutcome.stream [some "ok"] := by
      simp [schedOneEmpty]
    have hacq2 := acq_stream cfg (schedOneEmpty n) fuel (n + 1) 0 0
      [some "ok"] hs2
    have hinner := generate_stream_noguard cfg (schedOneEmpty n) fuel
      (n + 1) (n + 2) 0 0 0 _ [some "ok"] ["ok"] true hacq2 rfl (by simp)
    have hacq1 := acq_stream cfg (schedOneEmpty n) (fuel + 1) n 0 0
      [none, none, none] hs1
    have houter := generate_stream_guard_retry cfg (schedOneEmpty n)
      (fuel + 1) n (n + 1) 0 0 3 _ [none, none, none] [] hacq1 rfl
      (le_refl 3) (Or.inl (by omega))
    rw [houter, hinner]
    rfl

/-- Witness for C4 amended at the default configuration `cfgEx`
(`max_retries = 3`). -/
theorem C4_empty_stream_retry_policy_witness :
    generate cfgEx allEmpty 7 0 = none ∧
    (generate cfgEx (schedOneEmpty 0) 10 0).map retryObsOf =
      some ([some "ok"], 0, 0, [0, 0]) :=
  ⟨C4_empty_stream_retry_policy.1 cfgEx 7 0 (by decide),
   C4_empty_stream_retry_policy.2 cfgEx 8 0 (by decide)⟩

/-! ## Claim C1 — fallback order and per-model attempt counts -/

theorem modelAttempts_append (a b : List Ev) :
    modelAttempts (a ++ b) = modelAttempts a ++ modelAttempts b :=
  List.filterMap_append a b _

/-- Under the all-rate-limited schedule, a run of the acquisition loop
starting `d` retries below the maximum performs `d + 1` attempts at the
current model and then either re-raises (chain exhausted) or continues at
the next model with the counter at 1. -/
theorem acq_allRL_run (cfg : LLMServiceCfg) :
    ∀ (d rc mi n fuel : Nat), rc + d = cfg.max_retries → d + 1 ≤ fuel →
      (acquireLoop cfg allRL fuel n rc mi).map
          (fun p => (modelAttempts p.1, p.2.2)) =
        if cfg.num_backups + 1 ≤ mi + 1 then
          some (List.replicate (d + 1) mi, AcqResult.raisedOut)
        else
          (acquireLoop cfg allRL (fuel - (d + 1)) (n + d + 1) 1 (mi + 1)).map
            (fun p =>
              (List.replicate (d + 1) mi ++ modelAttempts p.1, p.2.2)) := by
  intro d
  induction d with
  | zero =>
      intro rc mi n fuel hrc hfuel
      obtain ⟨f, rfl⟩ : ∃ f, fuel = f + 1 := ⟨fuel - 1, by omega⟩
      have hmr : cfg.max_retries ≤ rc := by omega
      by_cases hmi : cfg.num_backups + 1 ≤ mi + 1
      · have hh : handle_rate_limit cfg rc mi =
            ([Ev.markRL cfg.rate_limit_duration], none) := by
          simp [handle_rate_limit, hmr, hmi]
        rw [acq_rl_raise cfg allRL f n rc mi _ rfl hh, if_pos hmi]
        simp [modelAttempts]
      · have hh : handle_rate_limit cfg rc mi =
            ([Ev.markRL cfg.rate_limit_duration], some (0 + 1, mi + 1)) := by
          simp [handle_rate_limit, hmr, hmi]
        rw [acq_rl_next cfg allRL f n rc mi (0 + 1) (mi + 1) _ rfl hh,
          if_neg hmi]
        simp only [Option.map_map, Nat.add_sub_cancel]
        rcases acquireLoop cfg allRL f (n + 1) 1 (mi + 1) with _ | p
        · rfl
        · simp [Function.comp, modelAttempts_append, modelAttempts]
  | succ d ih =>
      intro rc mi n fuel hrc hfuel
      obtain ⟨f, rfl⟩ : ∃ f, fuel = f + 1 := ⟨fuel - 1, by omega⟩
      have hlt : ¬ cfg.max_retries ≤ rc := by omega
      have hh : handle_rate_limit cfg rc mi =
          ([Ev.markRL cfg.rate_limit_duration,
            Ev.sleep (cfg.retry_delay * 2 ^ rc)], some (rc + 1, mi)) := by
        simp [handle_rate_limit, hlt]
      rw [acq_rl_next cfg allRL f n rc mi (rc + 1) mi _ rfl hh]
      have ih' := ih (rc + 1) mi (n + 1) f (by omega) (by omega)
      simp only [Option.map_map]
      by_cases hmi : cfg.num_backups + 1 ≤ mi + 1
      · rw [if_pos hmi]
        rw [if_pos hmi] at ih'
        rcases hq : acquireLoop cfg allRL f (n + 1) (rc + 1) mi with _ | p
        · rw [hq] at ih'; simp at ih'
        · rw [hq] at ih'
          simp only [Option.map_some'] at ih'
          simp only [Option.map_some', Function.comp]
          have h1 : modelAttempts p.1 = List.replicate (d + 1) mi :=
            congrArg Prod.fst (Option.some.inj ih')
          have h2 : p.2.2 = AcqResult.raisedOut :=
            congrArg Prod.snd (Option.some.inj ih')
          rw [modelAttempts_append, h1, h2]
          have h3 : modelAttempts [Ev.semAcquire, Ev.refreshKey,
              Ev.toolCall mi, Ev.semRelease, Ev.semAcquire,
              Ev.markRL cfg.rate_limit_duration,
              Ev.sleep (cfg.retry_delay * 2 ^ rc), Ev.semRelease] = [mi] := by
            simp [modelAttempts]
          rw [show ([Ev.semAcquire, Ev.refreshKey, Ev.toolCall mi,
              Ev.semRelease, Ev.semAcquire] ++
              [Ev.markRL cfg.rate_limit_duration,
               Ev.sleep (cfg.retry_delay * 2 ^ rc)] ++ [Ev.semRelease]) =
              [Ev.semAcquire, Ev.refreshKey, Ev.toolCall mi, Ev.semRelease,
               Ev.semAcquire, Ev.markRL cfg.rate_limit_duration,
               Ev.sleep (cfg.retry_delay * 2 ^ rc), Ev.semRelease] from rfl,
            h3]
          rw [show List.replicate (d + 1 + 1) mi =
            mi :: List.replicate (d + 1) mi from rfl]
          rfl
      · rw [if_neg hmi]
        rw [if_neg hmi] at ih'
        have hfa : f + 1 - (d + 1 + 1) = f - (d + 1) := by omega
        have hna : n + (d + 1) + 1 = n + 1 + d + 1 := by omega
        rw [hfa, hna]
        rcases hq : acquireLoop cfg allRL f (n + 1) (rc + 1) mi with _ | p
        · rw [hq] at ih'
          simp only [Option.map_none'] at ih'
          rcases hq2 : acquireLoop cfg allRL (f - (d + 1)) (n + 1 + d + 1) 1
              (mi + 1) with _ | q
          · simp
          · rw [hq2] at ih'
            simp at ih'
        · rw [hq] at ih'
          simp only [Option.map_some'] at ih'
          rcases hq2 : acquireLoop cfg allRL (f - (d + 1)) (n + 1 + d + 1) 1
              (mi + 1) with _ | q
          · rw [hq2] at ih'
            simp at ih'
          · rw [hq2] at ih'
            simp only [Option.map_some'] at ih'
            simp only [Option.map_some', Function.comp]
            have hpair := Option.some.inj ih'
            rw [Prod.mk.injEq] at hpair
            obtain ⟨h1, h2⟩ := hpair
            rw [modelAttempts_append, h1, h2]
            have h3 : modelAttempts ([Ev.semAcquire, Ev.refreshKey,
                Ev.toolCall mi, Ev.semRelease, Ev.semAcquire] ++
                [Ev.markRL cfg.rate_limit_duration,
                 Ev.sleep (cfg.retry_delay * 2 ^ rc)] ++ [Ev.semRelease]) =
                [mi] := by
              simp [modelAttempts]
            rw [h3]
            rw [show List.replicate (d + 1 + 1) mi =
              mi :: List.replicate (d + 1) mi from rfl]
            rfl

/-- C1 counterexample: with the default `max_retries = 3` and one backup
model, the all-rate-limited run attempts the primary model **4** times
(retry counts 0, 1, 2, 3), not 3 — then the backup 3 times. -/
theorem C1_counterexample :
    (generate cfgEx allRL 20 0).map attemptsOf =
      some [0, 0, 0, 0, 1, 1, 1] ∧
    ¬ ((generate cfgEx allRL 20 0).map attemptsOf =
        some [0, 0, 0, 1, 1, 1]) := by
  refine ⟨by decide, by decide⟩

/-- C1 amended: for a primary model with one backup and an always
rate-limited upstream, the gateway attempts the primary exactly
`max_retries + 1` times, then the backup exactly `max_retries` times
(never revisiting the primary — the attempt sequence is the two constant
blocks in order), then re-raises the exhaustion error.  The step function:
below the maximum the same model is retried with the counter incremented;
at the maximum the model index advances and the counter restarts at 1 (the
reset to 0 is incremented by the shared `return retry_count + 1`), which is
why the primary alone gets the extra attempt. -/
theorem C1_model_fallback (cfg : LLMServiceCfg) (fuel n : Nat)
    (hB : cfg.num_backups = 1) (hmr : 1 ≤ cfg.max_retries)
    (hfuel : 2 * cfg.max_retries + 2 ≤ fuel) :
    (generate cfg allRL fuel n).map
        (fun g => (modelAttempts g.events, g.status)) =
      some (List.replicate (cfg.max_retries + 1) 0 ++
            List.replicate cfg.max_retries 1, TermStatus.raised) ∧
    (∀ rc mi, rc < cfg.max_retries →
      (handle_rate_limit cfg rc mi).2 = some (rc + 1, mi)) ∧
    (∀ rc mi, cfg.max_retries ≤ rc → mi + 1 < cfg.num_backups + 1 →
      (handle_rate_limit cfg rc mi).2 = some (1, mi + 1)) := by
  refine ⟨?_, ?_, ?_⟩
  · obtain ⟨fl, rfl⟩ : ∃ fl, fuel = fl + 1 := ⟨fuel - 1, by omega⟩
    have run1 := acq_allRL_run cfg cfg.max_retries 0 0 n (fl + 1)
      (by omega) (by omega)
    rw [if_neg (by omega : ¬ cfg.num_backups + 1 ≤ 0 + 1)] at run1
    have run2 := acq_allRL_run cfg (cfg.max_retries - 1) 1 1
      (n + cfg.max_retries + 1) (fl + 1 - (cfg.max_retries + 1))
      (by omega) (by omega)
    rw [if_pos (by omega : cfg.num_backups + 1 ≤ 1 + 1)] at run2
    rw [show cfg.max_retries - 1 + 1 = cfg.max_retries from by omega] at run2
    rcases hq2 : acquireLoop cfg allRL (fl + 1 - (cfg.max_retries + 1))
        (n + cfg.max_retries + 1) 1 1 with _ | p2
    · rw [hq2] at run2; simp at run2
    · rw [hq2] at run2
      simp only [Option.map_some'] at run2
      have hpair2 := Option.some.inj run2
      rw [Prod.mk.injEq] at hpair2
      obtain ⟨hA2, hR2⟩ := hpair2
      rw [hq2] at run1
      simp only [Option.map_some'] at run1
      rcases hq1 : acquireLoop cfg allRL (fl + 1) n 0 0 with _ | p1
      · rw [hq1] at run1; simp at run1
      · rw [hq1] at run1
        simp only [Option.map_some'] at run1
        have hpair1 := Option.some.inj run1
        rw [Prod.mk.injEq] at hpair1
        obtain ⟨hA1, hR1⟩ := hpair1
        obtain ⟨evs1, n1, r1⟩ := p1
        simp only at hA1 hR1
        rw [hR2] at hR1
        subst hR1
        have := generate_raisedOut cfg allRL fl n n1 evs1 hq1
        rw [this]
        simp only [Option.map_some']
        rw [show modelAttempts (⟨[], TermStatus.raised, n1,
          evs1⟩ : GenOut).events = modelAttempts evs1 from rfl]
        rw [hA1, hA2]
  · intro rc mi h
    have h' : ¬ cfg.max_retries ≤ rc := by omega
    simp [handle_rate_limit, h']
  · intro rc mi h1 h2
    have h' : ¬ cfg.num_backups + 1 ≤ mi + 1 := by omega
    simp [handle_rate_limit, h1, h']

/-- Witness for C1 amended at the default configuration `cfgEx`
(`max_retries = 3`, one backup): 4 primary attempts, then 3 backup
attempts, then the exception. -/
theorem C1_model_fallback_witness :
    (generate cfgEx allRL 20 0).map
        (fun g => (modelAttempts g.events, g.status)) =
      some (List.replicate 4 0 ++ List.replicate 3 1, TermStatus.raised) ∧
    (∀ rc mi, rc < cfgEx.max_retries →
      (handle_rate_limit cfgEx rc mi).2 = some (rc + 1, mi)) ∧
    (∀ rc mi, cfgEx.max_retries ≤ rc → mi + 1 < cfgEx.num_backups + 1 →
      (handle_rate_limit cfgEx rc mi).2 = some (1, mi + 1)) :=
  C1_model_fallback cfgEx 20 0 (by decide) (by decide) (by decide)

/-! ## Claim C9 — semaphore discipline of the backoff sleep -/

/-- How one event changes the number of semaphore permits held by the
request (its nesting depth inside `async with self.api_semaphore`). -/
def updDepth (d : Nat) (e : Ev) : Nat :=
  match e with
  | Ev.semAcquire => d + 1
  | Ev.semRelease => d - 1
  | _ => d

/-- Semaphore depth after a list of events, starting from `d`. -/
def netDepth (evs : List Ev) (d : Nat) : Nat := evs.foldl updDepth d

/-- The semaphore depth at which each backoff sleep of a trace occurs. -/
def sleepDepths : List Ev → Nat → List Nat
  | [], _ => []
  | e :: r, d =>
      (match e with
       | Ev.sleep _ => [d]
       | _ => []) ++ sleepDepths r (updDepth d e)

/-- The semaphore depth at which each upstream call (tool-resolution or
stream-opening) of a trace occurs. -/
def callDepths : List Ev → Nat → List Nat
  | [], _ => []
  | e :: r, d =>
      (match e with
       | Ev.toolCall _ => [d]
       | Ev.streamCall _ => [d]
       | _ => []) ++ callDepths r (updDepth d e)

theorem netDepth_append (a b : List Ev) (d : Nat) :
    netDepth (a ++ b) d = netDepth b (netDepth a d) :=
  List.foldl_append _ _ _ _

theorem sleepDepths_append (a b : List Ev) :
    ∀ d, sleepDepths (a ++ b) d =
      sleepDepths a d ++ sleepDepths b (netDepth a d) := by
  induction a with
  | nil => intro d; rfl
  | cons e r ih =>
      intro d
      have h1 : sleepDepths ((e :: r) ++ b) d =
          (match e with | Ev.sleep _ => [d] | _ => ([] : List Nat)) ++
            sleepDepths (r ++ b) (updDepth d e) := rfl
      rw [h1, ih (updDepth d e)]
      exact (List.append_assoc _ _ _).symm

theorem callDepths_append (a b : List Ev) :
    ∀ d, callDepths (a ++ b) d =
      callDepths a d ++ callDepths b (netDepth a d) := by
  induction a with
  | nil => intro d; rfl
  | cons e r ih =>
      intro d
      have h1 : callDepths ((e :: r) ++ b) d =
          (match e with
           | Ev.toolCall _ => [d]
           | Ev.streamCall _ => [d]
           | _ => ([] : List Nat)) ++
            callDepths (r ++ b) (updDepth d e) := rfl
      rw [h1, ih (updDepth d e)]
      exact (List.append_assoc _ _ _).symm

/-- Every trace the acquisition loop can produce is semaphore-balanced,
with every backoff sleep and every upstream call at depth exactly 1. -/
theorem acq_depths (cfg : LLMServiceCfg) (sched : Nat → AttemptOutcome) :
    ∀ (fuel n rc mi n' : Nat) (evs : List Ev) (r : AcqResult),
      acquireLoop cfg sched fuel n rc mi = some (evs, n', r) →
      netDepth evs 0 = 0 ∧ (∀ x ∈ sleepDepths evs 0, x = 1) ∧
        (∀ x ∈ callDepths evs 0, x = 1) := by
  intro fuel
  induction fuel with
  | zero =>
      intro n rc mi n' evs r h
      exact absurd h (by simp [acquireLoop])
  | succ fuel ih =>
      intro n rc mi n' evs r h
      rcases hs : sched n with _ | _ | chunks
      · by_cases h1 : cfg.max_retries ≤ rc
        · by_cases h2 : cfg.num_backups + 1 ≤ mi + 1
          · have hh : handle_rate_limit cfg rc mi =
                ([Ev.markRL cfg.rate_limit_duration], none) := by
              simp [handle_rate_limit, h1, h2]
            rw [acq_rl_raise cfg sched fuel n rc mi _ hs hh] at h
            obtain ⟨he, -⟩ := Prod.mk.inj (Option.some.inj h)
            subst he
            refine ⟨rfl, ?_, ?_⟩
            · intro x hx
              simp [sleepDepths, updDepth] at hx
            · intro x hx
              simp [callDepths, updDepth] at hx
              omega
          · have hh : handle_rate_limit cfg rc mi =
                ([Ev.markRL cfg.rate_limit_duration], some (0 + 1, mi + 1)) := by
              simp [handle_rate_limit, h1, h2]
            rw [acq_rl_next cfg sched fuel n rc mi (0 + 1) (mi + 1) _ hs hh]
              at h
            rcases Option.map_eq_some'.1 h with ⟨p, hp, hpe⟩
            obtain ⟨he, -⟩ := Prod.mk.inj hpe
            rcases ih (n + 1) (0 + 1) (mi + 1) p.2.1 p.1 p.2.2
                (by rw [hp]) with ⟨ihd, ihs, ihc⟩
            subst he
            refine ⟨?_, ?_, ?_⟩
            · rw [netDepth_append, netDepth_append, netDepth_append]
              simpa [netDepth, updDepth] using ihd
            · intro x hx
              rw [sleepDepths_append, sleepDepths_append,
                sleepDepths_append] at hx
              simp only [netDepth, updDepth, List.foldl] at hx
              rcases List.mem_append.1 hx with hx' | hx'
              · rcases List.mem_append.1 hx' with hx'' | hx''
                · rcases List.mem_append.1 hx'' with hx3 | hx3
                  · simp [sleepDepths, updDepth] at hx3
                  · simp [sleepDepths, updDepth] at hx3
                · simp [sleepDepths, updDepth] at hx''
              · exact ihs x (by simpa [netDepth, updDepth] using hx')
            · intro x hx
              rw [callDepths_append, callDepths_append,
                callDepths_append] at hx
              rcases List.mem_append.1 hx with hx' | hx'
              · rcases List.mem_append.1 hx' with hx'' | hx''
                · rcases List.mem_append.1 hx'' with hx3 | hx3
                  · simp [callDepths, updDepth] at hx3
                    omega
                  · simp [callDepths, updDepth] at hx3
                · simp [callDepths, updDepth] at hx''
              · exact ihc x (by simpa [netDepth, updDepth] using hx')
        · have hh : handle_rate_limit cfg rc mi =
              ([Ev.markRL cfg.rate_limit_duration,
                Ev.sleep (cfg.retry_delay * 2 ^ rc)],
               some (rc + 1, mi)) := by
            simp [handle_rate_limit, h1]
          rw [acq_rl_next cfg sched fuel n rc mi (rc + 1) mi _ hs hh] at h
          rcases Option.map_eq_some'.1 h with ⟨p, hp, hpe⟩
          obtain ⟨he, -⟩ := Prod.mk.inj hpe
          rcases ih (n + 1) (rc + 1) mi p.2.1 p.1 p.2.2
              (by rw [hp]) with ⟨ihd, ihs, ihc⟩
          subst he
          refine ⟨?_, ?_, ?_⟩
          · rw [netDepth_append, netDepth_append, netDepth_append]
            simpa [netDepth, updDepth] using ihd
          · intro x hx
            rw [sleepDepths_append, sleepDepths_append,
              sleepDepths_append] at hx
            rcases List.mem_append.1 hx with hx' | hx'
            · rcases List.mem_append.1 hx' with hx'' | hx''
              · rcases List.mem_append.1 hx'' with hx3 | hx3
                · simp [sleepDepths, updDepth] at hx3
                · simp [sleepDepths, updDepth, netDepth] at hx3
                  omega
              · simp [sleepDepths, updDepth] at hx''
            · exact ihs x (by simpa [netDepth, updDepth] using hx')
          · intro x hx
            rw [callDepths_append, callDepths_append,
              callDepths_append] at hx
            rcases List.mem_append.1 hx with hx' | hx'
            · rcases List.mem_append.1 hx' with hx'' | hx''
              · rcases List.mem_append.1 hx'' with hx3 | hx3
                · simp [callDepths, updDepth] at hx3
                  omega
                · simp [callDepths, updDepth] at hx3
              · simp [callDepths, updDepth] at hx''
            · exact ihc x (by simpa [netDepth, updDepth] using hx')
      · rw [acq_other cfg sched fuel n rc mi hs] at h
        obtain ⟨he, -⟩ := Prod.mk.inj (Option.some.inj h)
        subst he
        refine ⟨rfl, ?_, ?_⟩
        · intro x hx
          simp [sleepDepths, updDepth] at hx
        · intro x hx
          simp [callDepths, updDepth] at hx
          omega
      · rw [acq_stream cfg sched fuel n rc mi chunks hs] at h
        obtain ⟨he, -⟩ := Prod.mk.inj (Option.some.inj h)
        subst he
        refine ⟨rfl, ?_, ?_⟩
        · intro x hx
          simp [sleepDepths, updDepth] at hx
        · intro x hx
          simp [callDepths, updDepth] at hx
          omega

theorem depths_combine (evs evs2 : List Ev)
    (h1 : netDepth evs 0 = 0 ∧ (∀ x ∈ sleepDepths evs 0, x = 1) ∧
      (∀ x ∈ callDepths evs 0, x = 1))
    (h2 : netDepth evs2 0 = 0 ∧ (∀ x ∈ sleepDepths evs2 0, x = 1) ∧
      (∀ x ∈ callDepths evs2 0, x = 1)) :
    netDepth (evs ++ evs2) 0 = 0 ∧
      (∀ x ∈ sleepDepths (evs ++ evs2) 0, x = 1) ∧
      (∀ x ∈ callDepths (evs ++ evs2) 0, x = 1) := by
  obtain ⟨d1, s1, c1⟩ := h1
  obtain ⟨d2, s2, c2⟩ := h2
  refine ⟨?_, ?_, ?_⟩
  · rw [netDepth_append, d1, d2]
  · intro x hx
    rw [sleepDepths_append, d1] at hx
    rcases List.mem_append.1 hx with h | h
    · exact s1 x h
    · exact s2 x h
  · intro x hx
    rw [callDepths_append, d1] at hx
    rcases List.mem_append.1 hx with h | h
    · exact c1 x h
    · exact c2 x h

/-- The C9 counterexample observation: the semaphore depth at each backoff
sleep of a run. -/
def sleepDepthsOf (g : GenOut) : List Nat := sleepDepths g.events 0

/-- C9 counterexample: in the default configuration's all-rate-limited run,
five backoff sleeps occur and every one of them happens at semaphore depth
1 — inside `async with self.api_semaphore` (the source acquires the
semaphore around the whole retry handling, backoff sleep included) — not at
depth 0 as the claim requires. -/
theorem C9_counterexample :
    (generate cfgEx allRL 20 0).map sleepDepthsOf =
      some [1, 1, 1, 1, 1] ∧
    ¬ ((generate cfgEx allRL 20 0).map sleepDepthsOf =
        some [0, 0, 0, 0, 0]) := by
  refine ⟨by decide, by decide⟩

/-- C9 amended: the exponential backoff sleep is always executed *while*
the concurrency semaphore is held: in every terminating run, every trace is
semaphore-balanced and every backoff sleep — like every upstream call —
occurs at semaphore depth exactly 1 (the retry handler re-acquires the
semaphore around `_handle_rate_limit`, whose sleep therefore runs under
it), so a backing-off request does occupy limiter capacity. -/
theorem C9_backoff_under_semaphore (cfg : LLMServiceCfg)
    (sched : Nat → AttemptOutcome) :
    ∀ (fuel n : Nat) (g : GenOut), generate cfg sched fuel n = some g →
      netDepth g.events 0 = 0 ∧ (∀ x ∈ sleepDepths g.events 0, x = 1) ∧
        (∀ x ∈ callDepths g.events 0, x = 1) := by
  intro fuel
  induction fuel with
  | zero =>
      intro n g h
      exact absurd h (by simp [generate])
  | succ fuel ih =>
      intro n g h
      rcases hacq : acquireLoop cfg sched (fuel + 1) n 0 0 with _ | p
      · have : generate cfg sched (fuel + 1) n = none := by
          unfold generate
          rw [hacq]
        rw [this] at h
        exact absurd h (by simp)
      · obtain ⟨evs, n', r⟩ := p
        rcases r with ⟨chunks, rc, mi⟩ | _ | _
        · rcases hemit : emitChunks chunks 0 false with ⟨ts, ec, hy⟩
          by_cases hg : 3 ≤ ec ∧ hy = false
          · obtain ⟨h3, hyf⟩ := hg
            subst hyf
            by_cases hrc : cfg.max_retries ≤ rc + 1
            · by_cases hmi : cfg.num_backups + 1 ≤ mi + 1
              · have hgen := generate_stream_guard_exhaust cfg sched fuel n
                  n' rc mi ec evs chunks ts hacq hemit h3 hrc hmi
                rw [hgen] at h
                cases Option.some.inj h
                exact acq_depths cfg sched (fuel + 1) n 0 0 n' evs _ hacq
              · have hgen := generate_stream_guard_retry cfg sched fuel n
                  n' rc mi ec evs chunks ts hacq hemit h3
                  (Or.inr ⟨hrc, hmi⟩)
                rw [hgen] at h
                rcases Option.map_eq_some'.1 h with ⟨g2, hg2, hge⟩
                cases hge
                exact depths_combine evs g2.events
                  (acq_depths cfg sched (fuel + 1) n 0 0 n' evs _ hacq)
                  (ih n' g2 hg2)
            · have hgen := generate_stream_guard_retry cfg sched fuel n
                n' rc mi ec evs chunks ts hacq hemit h3 (Or.inl hrc)
              rw [hgen] at h
              rcases Option.map_eq_some'.1 h with ⟨g2, hg2, hge⟩
              cases hge
              exact depths_combine evs g2.events
                (acq_depths cfg sched (fuel + 1) n 0 0 n' evs _ hacq)
                (ih n' g2 hg2)
          · have hgen := generate_stream_noguard cfg sched fuel n n' rc mi
              ec evs chunks ts hy hacq hemit hg
            rw [hgen] at h
            cases Option.some.inj h
            exact acq_depths cfg sched (fuel + 1) n 0 0 n' evs _ hacq
        · have hgen := generate_yieldedNone cfg sched fuel n n' evs hacq
          rw [hgen] at h
          cases Option.some.inj h
          exact acq_depths cfg sched (fuel + 1) n 0 0 n' evs _ hacq
        · have hgen := generate_raisedOut cfg sched fuel n n' evs hacq
          rw [hgen] at h
          cases Option.some.inj h
          exact acq_depths cfg sched (fuel + 1) n 0 0 n' evs _ hacq

/-- Fallback value for reading off a concrete run. -/
def genOutDefault : GenOut := ⟨[], TermStatus.normal, 0, []⟩

def isOne (d : Nat) : Bool := d == 1

/-- Witness for C9 amended at the default configuration's all-rate-limited
run: its trace is balanced and all its sleeps and upstream calls sit at
depth 1. -/
theorem C9_backoff_under_semaphore_witness :
    netDepth ((generate cfgEx allRL 20 0).getD genOutDefault).events 0 = 0 ∧
    (sleepDepths ((generate cfgEx allRL 20 0).getD genOutDefault).events
      0).all isOne = true ∧
    (callDepths ((generate cfgEx allRL 20 0).getD genOutDefault).events
      0).all isOne = true := by
  have h := C9_backoff_under_semaphore cfgEx allRL 20 0
    ((generate cfgEx allRL 20 0).getD genOutDefault) (by decide)
  refine ⟨h.1, ?_, ?_⟩
  · rw [List.all_eq_true]
    intro x hx
    rw [show isOne x = (x == 1) from rfl, beq_iff_eq]
    exact h.2.1 x hx
  · rw [List.all_eq_true]
    intro x hx
    rw [show isOne x = (x == 1) from rfl, beq_iff_eq]
    exact h.2.2 x hx

end FinanceChatbot
